import Mathlib

/-!
# Verification of the Leboncoin scraper's listing-extraction pipeline

Shallow embedding of the pipeline implemented by the repository's two
Streamlit applications (`app(11).py` and the two app variants in the
unnamed source file).  Python floats are modelled by `ℚ`, `None` by
`Option`, Python dicts by ordered association lists, and the `re` module
by a small fuel-based matcher covering the constructs used by the
default pattern registry (literals, `\b`, `\s`, `*`, ordered
alternation).  All definitions are executable and structurally
recursive.
-/

/-- Python whitespace (`str.strip` / `\s`): space, tab, LF, CR, VT, FF. -/
def isPySpace (c : Char) : Bool :=
  c = ' ' || c = '\t' || c = '\n' || c = '\r' || c = '\x0b' || c = '\x0c'

/-- `text.lower()` as used by `detect_parts` (ASCII case folding), viewed
as a character list so that the matcher can index positions. -/
def lowerText (s : String) : List Char :=
  s.toList.map Char.toLower

/-- Python `str.strip()` on both ends. -/
def strip (s : String) : String :=
  String.mk (((s.toList.dropWhile isPySpace).reverse.dropWhile isPySpace).reverse)

/-- Regular-expression abstract syntax for the subset of Python `re`
used by the detection registry (`detect_parts`): character literals,
character classes, concatenation, ordered alternation, greedy star and
the zero-width word boundary `\b`. -/
inductive Regex where
  | eps : Regex
  | ch : Char → Regex
  | cls : (Char → Bool) → Regex
  | seq : Regex → Regex → Regex
  | alt : Regex → Regex → Regex
  | star : Regex → Regex
  | wordB : Regex

/-- Size of a regex, used to compute a sufficient fuel bound. -/
def Regex.size : Regex → Nat
  | .eps => 1
  | .ch _ => 1
  | .cls _ => 1
  | .seq a b => a.size + b.size + 1
  | .alt a b => a.size + b.size + 1
  | .star a => a.size + 1
  | .wordB => 1

/-- Python `\w`: letters, digits and underscore (ASCII fragment). -/
def isWordChar (c : Char) : Bool :=
  c.isAlphanum || c = '_'

/-- Whether position `i` of `t` holds a word character. -/
def isWordAt (t : List Char) (i : Nat) : Bool :=
  match t.get? i with
  | some c => isWordChar c
  | none => false

/-- Python `\b`: positions where word-ness changes. -/
def atBoundary (t : List Char) (i : Nat) : Bool :=
  match i with
  | 0 => isWordAt t 0
  | j + 1 => isWordAt t (j + 1) != isWordAt t j

/-- All end positions of matches of `r` starting at position `i` of `t`,
in Python's backtracking priority order (left alternative first, greedy
star, star iterations must consume at least one character).  `fuel`
bounds the recursion depth; `matchFuel` below always provides enough. -/
def runs (t : List Char) : Nat → Regex → Nat → List Nat
  | 0, _, _ => []
  | fuel + 1, r, i =>
    match r with
    | .eps => [i]
    | .ch c =>
      match t.get? i with
      | some d => if d = c then [i + 1] else []
      | none => []
    | .cls f =>
      match t.get? i with
      | some d => if f d then [i + 1] else []
      | none => []
    | .wordB => if atBoundary t i then [i] else []
    | .seq a b => (runs t fuel a i).flatMap (runs t fuel b)
    | .alt a b => runs t fuel a i ++ runs t fuel b i
    | .star a =>
      ((runs t fuel a i).filter (fun j => i < j)).flatMap (runs t fuel (.star a)) ++ [i]

/-- Fuel that is always sufficient for `runs` on `t`. -/
def matchFuel (r : Regex) (t : List Char) : Nat :=
  (r.size + 2) * (t.length + 2)

/-- End position of the Python `re.match` of `r` at position `i` of `t`
(highest-priority match), if any. -/
def matchEnd (t : List Char) (r : Regex) (i : Nat) : Option Nat :=
  (runs t (matchFuel r t) r i).head?

/-- Scanning loop of `re.findall`: count non-overlapping matches left to
right, advancing past each match (or by one character after an empty
match or a failure). -/
def findallCountAux (r : Regex) (t : List Char) : Nat → Nat → Nat
  | 0, _ => 0
  | fuel + 1, i =>
    if t.length < i then 0
    else
      match matchEnd t r i with
      | none => findallCountAux r t fuel (i + 1)
      | some j =>
        if i < j then findallCountAux r t fuel j + 1
        else findallCountAux r t fuel (i + 1) + 1

/-- `len(re.findall(pat, text))`: number of non-overlapping matches. -/
def findallCount (r : Regex) (t : List Char) : Nat :=
  findallCountAux r t (t.length + 1) 0

/-- Literal string as a regex. -/
def rlit (s : String) : Regex :=
  s.toList.foldr (fun c r => Regex.seq (Regex.ch c) r) Regex.eps

/-- The registry pattern `gpu_rtx_3070`, source text
`\brtx\s*3070\b|\b3070ti\b`. -/
def pat_rtx_3070 : Regex :=
  Regex.alt
    (Regex.seq Regex.wordB
      (Regex.seq (rlit "rtx")
        (Regex.seq (Regex.star (Regex.cls isPySpace))
          (Regex.seq (rlit "3070") Regex.wordB))))
    (Regex.seq Regex.wordB (Regex.seq (rlit "3070ti") Regex.wordB))

/-- One entry of the configurable pattern registry: either a rule that
compiled to a regex, or a rule whose text is rejected by the regex
compiler (Python raises `re.error` for it inside `re.findall`). -/
inductive Pat where
  | ok : Regex → Pat
  | malformed : Pat

/-- Whether a registry entry is syntactically valid. -/
def Pat.isOk : Pat → Bool
  | .ok _ => true
  | .malformed => false

/-- The `Listing` dataclass of the analyzer application (the opaque
`raw` payload is omitted). -/
structure Listing where
  source : String
  url : String
  title : String
  price_eur : Option ℚ
  location : Option String
  date_str : Option String
  seller : Option String := none
  description : Option String := none
  images : List String := []
  detected_parts : List (String × Nat) := []
  parts_value_eur : ℚ := 0
  target_negotiation_pct : ℚ := 0
  negotiated_price_eur : Option ℚ := none
  estimated_margin_eur : Option ℚ := none
deriving DecidableEq

/-- Action of `detect_parts` on one registry entry: skip a malformed
rule (`except re.error: pass`), otherwise keep the key with its match
count when the count is positive (`if m: found[key] = len(m)`). -/
def detect_entry (lower : List Char) (kp : String × Pat) : Option (String × Nat) :=
  match kp.2 with
  | Pat.malformed => none
  | Pat.ok r =>
    if findallCount r lower = 0 then none else some (kp.1, findallCount r lower)

/-- `detect_parts(text, patterns)`: lower-case the text once, then scan
every registry entry in order. -/
def detect_parts (text : String) (patterns : List (String × Pat)) : List (String × Nat) :=
  patterns.filterMap (detect_entry (lowerText text))

/-- `price_map.get(k, 0)`. -/
def lookupD (pm : List (String × ℚ)) (k : String) : ℚ :=
  (pm.lookup k).getD 0

/-- `compute_parts_value(parts, price_map)`: running total of
`price_map.get(k, 0) * qty` over the detected parts. -/
def compute_parts_value (parts : List (String × Nat)) (price_map : List (String × ℚ)) : ℚ :=
  parts.foldl (fun total kq => total + lookupD price_map kq.1 * (kq.2 : ℚ)) 0

/-- `estimate_margin(listing, negotiation_pct, dismantle_bonus_pct)`.
`listing.price_eur or np.nan` makes a missing or zero price (falsy in
Python) behave as NaN, so `pd.isna` routes both to `None`; otherwise
the negotiated price is `max(0, ask * (1 - pct/100))` and the margin is
the bonus-adjusted parts value minus the negotiated price. -/
def estimate_margin (l : Listing) (negotiation_pct : ℚ) (dismantle_bonus_pct : ℚ) : Listing :=
  let ask : Option ℚ :=
    match l.price_eur with
    | none => none
    | some p => if p = 0 then none else some p
  let negotiated : Option ℚ :=
    match ask with
    | none => none
    | some a => some (max 0 (a * (1 - negotiation_pct / 100)))
  let parts_value : ℚ := l.parts_value_eur * (1 + dismantle_bonus_pct / 100)
  let margin : Option ℚ :=
    match negotiated with
    | none => none
    | some n => some (parts_value - n)
  { l with negotiated_price_eur := negotiated, estimated_margin_eur := margin }

/-- `f"{lst.title}\n{lst.description or ''}"`: the text the detector
scans for one listing. -/
def listing_text (l : Listing) : String :=
  l.title ++ "\n" ++ (match l.description with | some d => d | none => "")

/-- Per-listing analysis body of `run_search`: detect parts over the
concatenated title and description, store the parts value, then run
`estimate_margin`. -/
def valuate (l : Listing) (patterns : List (String × Pat)) (price_map : List (String × ℚ))
    (negotiation_pct dismantle_bonus_pct : ℚ) : Listing :=
  let parts := detect_parts (listing_text l) patterns
  estimate_margin
    { l with
      detected_parts := parts
      parts_value_eur := compute_parts_value parts price_map
      target_negotiation_pct := negotiation_pct }
    negotiation_pct dismantle_bonus_pct

/-- Minor-unit heuristic of the structured-data tier:
`if isinstance(price, (int, float)) and price and price > 10000:
price = price / 100`. -/
def minor_unit_heuristic (p : ℚ) : ℚ :=
  if p ≠ 0 ∧ 10000 < p then p / 100 else p

/-- Tail of the price extraction: apply the minor-unit heuristic, then
`price = float(price) if price else None` (a zero price becomes
`None`). -/
def normalize_ad_price (raw : Option ℚ) : Option ℚ :=
  match raw with
  | none => none
  | some p =>
    if minor_unit_heuristic p = 0 then none else some (minor_unit_heuristic p)

/-- Python `a or b` on optional numbers: `a` unless it is falsy
(missing or zero). -/
def pyOr (a b : Option ℚ) : Option ℚ :=
  match a with
  | none => b
  | some v => if v = 0 then b else some v

/-- Full numeric price extraction of the structured-data tier:
`price = ad.get("price") or ad.get("priceCents")` followed by the
normalization above. -/
def parse_price (price priceCents : Option ℚ) : Option ℚ :=
  normalize_ad_price (pyOr price priceCents)

/-- `LeboncoinAdapter.BASE_URL`. -/
def BASE_URL : String := "https://www.leboncoin.fr/recherche/"

/-- Upper-case hexadecimal digit. -/
def hexDigit (n : Nat) : Char :=
  if n < 10 then Char.ofNat (48 + n) else Char.ofNat (55 + n)

/-- Percent-encoding of one byte. -/
def quoteByte (n : Nat) : String :=
  String.mk ['%', hexDigit (n / 16), hexDigit (n % 16)]

/-- Characters `urllib.parse.quote` leaves intact with the default
`safe='/'`: unreserved characters plus the slash. -/
def isSafeChar (c : Char) : Bool :=
  c.isAlphanum || c = '_' || c = '.' || c = '-' || c = '~' || c = '/'

/-- `urllib.parse.quote` (as re-exported by `requests.utils.quote`) on
one character: kept if safe, otherwise its UTF-8 bytes are
percent-encoded. -/
def quoteOne (c : Char) : String :=
  if isSafeChar c then String.mk [c]
  else String.join (((String.mk [c]).toUTF8.toList).map (fun b => quoteByte b.toNat))

/-- `requests.utils.quote(s)` with the default safe characters. -/
def pquote (s : String) : String :=
  String.join (s.toList.map quoteOne)

/-- The `price` range token: `f"{price_min}-{price_max if price_max is
not None else ''}"`. -/
def price_token (pmin : Int) (pmax : Option Int) : String :=
  toString pmin ++ "-" ++ (match pmax with | some b => toString b | none => "")

/-- The ordered parameter dict built by
`LeboncoinAdapter.build_search_url`: `text` and `page` always, `price`
only when `price_min is not None`, `locations` only when truthy. -/
def build_params (q : String) (category loc : Option String)
    (pmin pmax : Option Int) (page : Nat) : List (String × String) :=
  [("text", strip q), ("page", toString page)]
    ++ (match pmin with
        | some a => [("price", price_token a pmax)]
        | none => [])
    ++ (match loc with
        | none => []
        | some s => if s = "" then [] else [("locations", s)])

/-- `LeboncoinAdapter.build_search_url`: join the quoted parameters
with `&` after the base URL.  The `category` argument is accepted and
ignored, exactly as in the source. -/
def build_search_url (q : String) (category loc : Option String)
    (pmin pmax : Option Int) (page : Nat) : String :=
  BASE_URL ++ "?" ++
    String.intercalate "&"
      ((build_params q category loc pmin pmax page).map (fun kv => kv.1 ++ "=" ++ pquote kv.2))

/-- `queries.split(",")` on the raw character list. -/
def splitCommaAux : List Char → List Char → List String
  | [], acc => [String.mk acc.reverse]
  | c :: cs, acc =>
    if c = ',' then String.mk acc.reverse :: splitCommaAux cs []
    else splitCommaAux cs (c :: acc)

/-- `qlist = [q.strip() for q in queries.split(",") if q.strip()]`:
the per-run query list, with empty-after-trim entries dropped. -/
def qlist_of (queries : String) : List String :=
  ((splitCommaAux queries.toList []).map strip).filter (fun s => s != "")

/-- The retrieval loop of the run block: each page request yields
either content or a failure signal (`None`, with an empty string also
treated as "no content"); failures are skipped with a notice and the
parsed listings of successful requests are appended in order. -/
def run_fetch_loop (pages : List (Option String)) (parse : String → List α) : List α :=
  pages.foldl
    (fun acc h =>
      match h with
      | none => acc
      | some html => if html = "" then acc else acc ++ parse html)
    []

/-- `df.drop_duplicates(subset=["url"])` with the default
`keep="first"`: keep a row only if its key has not been seen before. -/
def dedup_by (key : α → String) : List String → List α → List α
  | _, [] => []
  | seen, r :: rs =>
    if key r ∈ seen then dedup_by key seen rs
    else r :: dedup_by key (key r :: seen) rs

/-- Deduplication of listings by `url`. -/
def drop_duplicates_by_url (rows : List Listing) : List Listing :=
  dedup_by (fun l => l.url) [] rows

/-- Ascending order on an optional sort key with pandas'
`na_position="last"`: every present value precedes every absent one. -/
def optLeAsc : Option ℚ → Option ℚ → Bool
  | some a, some b => decide (a ≤ b)
  | some _, none => true
  | none, some _ => false
  | none, none => true

/-- Descending order on an optional sort key, still with absent values
last (`sort_values(["est_margin"], ascending=[False])`, default
`na_position`). -/
def optLeDesc : Option ℚ → Option ℚ → Bool
  | some a, some b => decide (b ≤ a)
  | some _, none => true
  | none, some _ => false
  | none, none => true

/-- Row order used by `df.sort_values("prix (€)", ascending=True,
na_position="last")`. -/
def PriceRel (a b : Listing) : Prop :=
  optLeAsc a.price_eur b.price_eur = true

/-- Row order used by `df.sort_values(["est_margin"],
ascending=[False])`. -/
def MarginRel (a b : Listing) : Prop :=
  optLeDesc a.estimated_margin_eur b.estimated_margin_eur = true

instance : DecidableRel PriceRel := fun a b => Bool.decEq _ _

instance : DecidableRel MarginRel := fun a b => Bool.decEq _ _

/-- Final sort of the keyword-only application: sort by ascending price,
but only when some price is known (`df["prix (€)"].notna().any()`). -/
def sort_rows_price (rows : List Listing) : List Listing :=
  if rows.any (fun r => r.price_eur.isSome) then List.insertionSort PriceRel rows else rows

/-- Final sort of `run_search`: descending estimated margin. -/
def sort_rows_margin (rows : List Listing) : List Listing :=
  List.insertionSort MarginRel rows

/-- Aggregation tail of `run_search`: the collected listings go through
the row-building loop and, when non-empty, straight into
`sort_values(["est_margin"], ascending=[False])` — there is no
`drop_duplicates` call on this path (sorting an empty frame is the
identity, so the emptiness guard needs no separate case). -/
def run_search_aggregate (ls : List Listing) : List Listing :=
  sort_rows_margin ls

/-- One result row of the city/radius application: title, price, city,
date, url, coordinates and the computed distance. -/
structure AdRow where
  titre : String
  prix : Option ℚ
  ville : Option String
  date : Option String
  url : String
  lat : Option ℚ := none
  lon : Option ℚ := none
  dist : Option ℚ := none
deriving DecidableEq

/-- Row order of `df.sort_values(["distance (km)", "prix (€)"],
ascending=[True, True])`: lexicographic on distance then price, absent
values last in each column. -/
def GeoRel (a b : AdRow) : Bool :=
  if a.dist = b.dist then optLeAsc a.prix b.prix else optLeAsc a.dist b.dist

/-- Propositional form of `GeoRel` for the sorting lemmas. -/
def GeoRelP (a b : AdRow) : Prop :=
  GeoRel a b = true

instance : DecidableRel GeoRelP := fun a b => Bool.decEq _ _

/-- Final sort of the city/radius run block: ascending distance, then
ascending price. -/
def sort_rows_geo (rows : List AdRow) : List AdRow :=
  List.insertionSort GeoRelP rows

/-- Ascending price viewed as a relation on city/radius rows (what the
spec predicts for the non-valuation aggregator). -/
def GeoPriceAscRel (a b : AdRow) : Prop :=
  optLeAsc a.prix b.prix = true

instance : DecidableRel GeoPriceAscRel := fun a b => Bool.decEq _ _

/-- Aggregation tail of the city/radius run block: keep rows whose
distance is unknown or within the radius, deduplicate by `url`
(first occurrence), then sort by distance and price. -/
def aggregate_geo (radius : ℚ) (rows : List AdRow) : List AdRow :=
  let kept := rows.filter (fun r =>
    match r.dist with
    | none => true
    | some d => decide (d ≤ radius))
  List.insertionSort GeoRelP (dedup_by (fun r => r.url) [] kept)

/-- The guard of the retrieval loop: a failed retrieval (`None`) and an
empty content blob are both "no content for this page". -/
def okContent : Option String → Option String
  | none => none
  | some h => if h = "" then none else some h

theorem fetch_foldl (parse : String → List α) :
    ∀ (pages : List (Option String)) (acc : List α),
      pages.foldl
        (fun acc h =>
          match h with
          | none => acc
          | some html => if html = "" then acc else acc ++ parse html)
        acc
      = acc ++ (pages.filterMap okContent).flatMap parse
  | [], acc => by simp
  | none :: ps, acc => by
    simpa [okContent] using fetch_foldl parse ps acc
  | some h :: ps, acc => by
    by_cases hh : h = "" <;>
      simp [okContent, hh, fetch_foldl parse ps, List.append_assoc]

/-- Claim C2: the minor-unit heuristic of the structured-data parsing
tier leaves numeric prices at or below 10000 unchanged and divides
prices strictly above 10000 by 100; concretely 150000 normalizes to
1500, 1500 stays 1500, 10000 stays 10000 and 10001 becomes 100.01. -/
theorem C2_minor_unit :
    (∀ p : ℚ, p ≤ 10000 → minor_unit_heuristic p = p)
    ∧ (∀ p : ℚ, 10000 < p → minor_unit_heuristic p = p / 100)
    ∧ normalize_ad_price (some 150000) = some 1500
    ∧ normalize_ad_price (some 1500) = some 1500
    ∧ normalize_ad_price (some 10000) = some 10000
    ∧ normalize_ad_price (some 10001) = some 100.01 := by
  refine ⟨?_, ?_,
    by norm_num [normalize_ad_price, minor_unit_heuristic],
    by norm_num [normalize_ad_price, minor_unit_heuristic],
    by norm_num [normalize_ad_price, minor_unit_heuristic],
    by norm_num [normalize_ad_price, minor_unit_heuristic]⟩
  · intro p hp
    unfold minor_unit_heuristic
    rw [if_neg]
    rintro ⟨-, h⟩
    linarith
  · intro p hp
    unfold minor_unit_heuristic
    rw [if_pos ⟨by intro h; rw [h] at hp; norm_num at hp, hp⟩]

/-- Witness for C2 at concrete prices on both sides of the
threshold. -/
theorem C2_witness :
    minor_unit_heuristic 1500 = 1500 ∧ minor_unit_heuristic 150000 = 150000 / 100 :=
  ⟨C2_minor_unit.1 1500 (by norm_num), C2_minor_unit.2.1 150000 (by norm_num)⟩

/-- Claim C10: a zero (falsy) origin price is normalized to absence,
not to `0.0`: the `or` chain treats a zero `price` field like a missing
one, the parser never emits `some 0`, and `estimate_margin` maps both a
missing and a zero price to an absent negotiated price and margin. -/
theorem C10_zero_price :
    (∀ pc : Option ℚ, parse_price (some 0) pc = parse_price none pc)
    ∧ (∀ p q : ℚ, normalize_ad_price (some p) = some q → q ≠ 0)
    ∧ parse_price (some 0) none = none
    ∧ (∀ (l : Listing) (npct bpct : ℚ), l.price_eur = none ∨ l.price_eur = some 0 →
        (estimate_margin l npct bpct).negotiated_price_eur = none
        ∧ (estimate_margin l npct bpct).estimated_margin_eur = none) := by
  refine ⟨?_, ?_, by decide, ?_⟩
  · intro pc
    simp [parse_price, pyOr]
  · intro p q h
    unfold normalize_ad_price at h
    by_cases hm : minor_unit_heuristic p = 0
    · simp [hm] at h
    · simp [hm] at h
      rw [← h]
      exact hm
  · intro l npct bpct h
    rcases h with h | h <;> simp [estimate_margin, h]

/-- A concrete listing whose origin price field was `0`. -/
def exZeroPriceListing : Listing :=
  { source := "Leboncoin", url := "https://www.leboncoin.fr/ad/0", title := "PC gamer",
    price_eur := some 0, location := none, date_str := none }

/-- Witness for C10: the zero-priced listing gets `None` for both
derived fields. -/
theorem C10_witness :
    (estimate_margin exZeroPriceListing 10 5).negotiated_price_eur = none
    ∧ (estimate_margin exZeroPriceListing 10 5).estimated_margin_eur = none :=
  C10_zero_price.2.2.2 exZeroPriceListing 10 5 (Or.inr rfl)

/-- Claim C4: retrieval failure for one request never aborts the run:
in a five-request sequence whose second and fourth retrievals fail, the
loop yields exactly the parsed listings of requests 1, 3 and 5 in
order, and in general the loop output is the concatenation, in
retrieval order, of the parses of the successful requests. -/
theorem C4_failure_isolation (parse : String → List α) (h1 h3 h5 : String)
    (n1 : h1 ≠ "") (n3 : h3 ≠ "") (n5 : h5 ≠ "") :
    run_fetch_loop [some h1, none, some h3, none, some h5] parse
      = parse h1 ++ parse h3 ++ parse h5
    ∧ ∀ pages : List (Option String),
        run_fetch_loop pages parse = (pages.filterMap okContent).flatMap parse := by
  constructor
  · simp [run_fetch_loop, n1, n3, n5]
  · intro pages
    simpa using fetch_foldl parse pages []

/-- Witness for C4 with three concrete successful pages. -/
theorem C4_witness :
    run_fetch_loop [some "a", none, some "b", none, some "c"] (fun s => [s])
      = ["a"] ++ ["b"] ++ ["c"] :=
  (C4_failure_isolation (fun s => [s]) "a" "b" "c" (by decide) (by decide) (by decide)).1

theorem compute_parts_value_eq (parts : List (String × Nat)) (pm : List (String × ℚ)) :
    compute_parts_value parts pm
      = (parts.map (fun kq => lookupD pm kq.1 * (kq.2 : ℚ))).sum := by
  unfold compute_parts_value
  rw [List.sum_eq_foldl, List.foldl_map]

theorem estimate_margin_keeps_parts (l : Listing) (npct bpct : ℚ) :
    (estimate_margin l npct bpct).parts_value_eur = l.parts_value_eur := rfl

theorem valuate_eq (l : Listing) (patterns : List (String × Pat))
    (pm : List (String × ℚ)) (npct bpct : ℚ) :
    valuate l patterns pm npct bpct
      = estimate_margin
          { l with
            detected_parts := detect_parts (listing_text l) patterns
            parts_value_eur := compute_parts_value (detect_parts (listing_text l) patterns) pm
            target_negotiation_pct := npct }
          npct bpct := rfl

theorem estimate_margin_pos (l : Listing) (npct bpct p : ℚ) (hp : l.price_eur = some p)
    (hpos : 0 < p) (hn1 : npct ≤ 100) :
    (estimate_margin l npct bpct).negotiated_price_eur = some (p * (1 - npct / 100))
    ∧ (estimate_margin l npct bpct).estimated_margin_eur
        = some (l.parts_value_eur * (1 + bpct / 100) - p * (1 - npct / 100)) := by
  have hmax : max 0 (p * (1 - npct / 100)) = p * (1 - npct / 100) :=
    max_eq_right (mul_nonneg hpos.le (by linarith))
  constructor <;> simp [estimate_margin, hp, hpos.ne', hmax]

/-- Claim C1 (amended): through `compute_parts_value` and
`estimate_margin`, the parts value is the sum over detected attribute
keys of match count times configured unit value (zero for
unconfigured keys); when the price is present and positive the
negotiated price is `price * (1 - negotiationPct/100)` and the margin
is `partsValue * (1 + dismantleBonusPct/100) - negotiatedPrice`; when
the price is absent or zero both derived fields are absent. -/
theorem C1_amended_valuation (l : Listing) (patterns : List (String × Pat))
    (pm : List (String × ℚ)) (npct bpct : ℚ)
    (hn0 : 0 ≤ npct) (hn1 : npct ≤ 100) (hb0 : 0 ≤ bpct) (hb1 : bpct ≤ 100) :
    (valuate l patterns pm npct bpct).parts_value_eur
      = ((detect_parts (listing_text l) patterns).map
          (fun kq => lookupD pm kq.1 * (kq.2 : ℚ))).sum
    ∧ (∀ p : ℚ, l.price_eur = some p → 0 < p →
        (valuate l patterns pm npct bpct).negotiated_price_eur = some (p * (1 - npct / 100))
        ∧ (valuate l patterns pm npct bpct).estimated_margin_eur
            = some ((valuate l patterns pm npct bpct).parts_value_eur * (1 + bpct / 100)
                - p * (1 - npct / 100)))
    ∧ ((l.price_eur = none ∨ l.price_eur = some 0) →
        (valuate l patterns pm npct bpct).negotiated_price_eur = none
        ∧ (valuate l patterns pm npct bpct).estimated_margin_eur = none) := by
  refine ⟨?_, ?_, ?_⟩
  · rw [valuate_eq, estimate_margin_keeps_parts]
    exact compute_parts_value_eq _ _
  · intro p hp hpos
    have h := estimate_margin_pos
      { l with
        detected_parts := detect_parts (listing_text l) patterns
        parts_value_eur := compute_parts_value (detect_parts (listing_text l) patterns) pm
        target_negotiation_pct := npct }
      npct bpct p hp hpos hn1
    rw [valuate_eq, estimate_margin_keeps_parts]
    exact h
  · intro h
    rw [valuate_eq]
    rcases h with h | h <;>
      constructor <;> simp [estimate_margin, h]

/-- A listing whose origin price field is exactly `0`. -/
def exC1ZeroListing : Listing :=
  { source := "Leboncoin", url := "https://www.leboncoin.fr/ad/1", title := "rtx 3070",
    price_eur := some 0, location := none, date_str := none }

/-- Counterexample to C1 as stated: for a present price of `0` the
claim's formula demands `negotiatedPrice = some (0 * (1 - 10/100))`,
but the code yields `none` because a zero price fails the truthiness
guard `listing.price_eur or np.nan`. -/
theorem C1_counterexample :
    (valuate exC1ZeroListing [] [] 10 5).negotiated_price_eur = none
    ∧ (valuate exC1ZeroListing [] [] 10 5).negotiated_price_eur
        ≠ some ((0 : ℚ) * (1 - 10 / 100)) := by
  have h : (valuate exC1ZeroListing [] [] 10 5).negotiated_price_eur = none := rfl
  exact ⟨h, by rw [h]; exact fun hc => Option.noConfusion hc⟩

/-- A listing with a positive price for the C1 witness. -/
def exC1PosListing : Listing :=
  { source := "Leboncoin", url := "https://www.leboncoin.fr/ad/2", title := "rtx 3070",
    price_eur := some 200, location := none, date_str := none }

/-- Witness for C1 at a concrete positively priced listing. -/
theorem C1_witness :
    (valuate exC1PosListing [] [] 10 5).negotiated_price_eur = some (200 * (1 - 10 / 100))
    ∧ (valuate exC1PosListing [] [] 10 5).estimated_margin_eur
        = some ((valuate exC1PosListing [] [] 10 5).parts_value_eur * (1 + 5 / 100)
            - 200 * (1 - 10 / 100)) :=
  (C1_amended_valuation exC1PosListing [] [] 10 5 (by norm_num) (by norm_num)
    (by norm_num) (by norm_num)).2.1 200 rfl (by norm_num)

theorem dedup_by_first (key : α → String) :
    ∀ (rs : List α) (seen : List String), ∀ r ∈ dedup_by key seen rs,
      key r ∉ seen ∧ List.find? (fun x => key x == key r) rs = some r := by
  intro rs
  induction rs with
  | nil =>
    intro seen r h
    simp [dedup_by] at h
  | cons r0 rs ih =>
    intro seen r hr
    by_cases h0 : key r0 ∈ seen
    · simp only [dedup_by, if_pos h0] at hr
      obtain ⟨hn, hf⟩ := ih seen r hr
      refine ⟨hn, ?_⟩
      rw [List.find?_cons_of_neg, hf]
      simp only [beq_iff_eq]
      intro he
      exact hn (he ▸ h0)
    · simp only [dedup_by, if_neg h0] at hr
      rcases List.mem_cons.mp hr with rfl | hr2
      · refine ⟨h0, ?_⟩
        rw [List.find?_cons_of_pos]
        simp
      · obtain ⟨hn, hf⟩ := ih (key r0 :: seen) r hr2
        have hne : key r0 ≠ key r := by
          intro he
          exact hn (by rw [← he]; exact List.mem_cons_self _ _)
        refine ⟨fun hs => hn (List.mem_cons_of_mem _ hs), ?_⟩
        rw [List.find?_cons_of_neg, hf]
        simp only [beq_iff_eq]
        exact hne

theorem dedup_by_nodup (key : α → String) :
    ∀ (rs : List α) (seen : List String), ((dedup_by key seen rs).map key).Nodup := by
  intro rs
  induction rs with
  | nil =>
    intro seen
    simp [dedup_by]
  | cons r0 rs ih =>
    intro seen
    by_cases h0 : key r0 ∈ seen
    · simpa [dedup_by, h0] using ih seen
    · simp only [dedup_by, if_neg h0, List.map_cons]
      rw [List.nodup_cons]
      refine ⟨?_, ih _⟩
      intro hmem
      obtain ⟨r, hr, he⟩ := List.mem_map.mp hmem
      apply (dedup_by_first key rs (key r0 :: seen) r hr).1
      rw [he]
      exact List.mem_cons_self _ _

theorem dedup_by_mem_key (key : α → String) :
    ∀ (rs : List α) (seen : List String) (u : String), u ∉ seen →
      (u ∈ rs.map key ↔ u ∈ (dedup_by key seen rs).map key) := by
  intro rs
  induction rs with
  | nil =>
    intro seen u _
    simp [dedup_by]
  | cons r0 rs ih =>
    intro seen u hu
    by_cases h0 : key r0 ∈ seen
    · have hne : u ≠ key r0 := fun he => hu (he ▸ h0)
      simp only [dedup_by, if_pos h0, List.map_cons, List.mem_cons]
      rw [← ih seen u hu]
      constructor
      · rintro (he | hm)
        · exact absurd he hne
        · exact hm
      · exact Or.inr
    · simp only [dedup_by, if_neg h0, List.map_cons, List.mem_cons]
      by_cases he : u = key r0
      · simp [he]
      · have hu2 : u ∉ key r0 :: seen := by
          intro hm
          rcases List.mem_cons.mp hm with h | h
          · exact he h
          · exact hu h
        rw [ih (key r0 :: seen) u hu2]

/-- Claim C3 (amended): in the two run blocks that call
`drop_duplicates` (the keyword-only and city/radius aggregators),
deduplication by `url` with the default `keep="first"` outputs each
distinct url exactly once, keeps exactly the urls of the input, and for
each kept row returns the first input row carrying that url; the
analyzer's `run_search` aggregation, by contrast, performs no
deduplication — its output is a permutation of its input, so repeated
urls survive to the sorted result. -/
theorem C3_dedup (rows : List Listing) :
    ((drop_duplicates_by_url rows).map Listing.url).Nodup
    ∧ (∀ u : String,
        u ∈ rows.map Listing.url ↔ u ∈ (drop_duplicates_by_url rows).map Listing.url)
    ∧ (∀ r ∈ drop_duplicates_by_url rows,
        List.find? (fun x => x.url == r.url) rows = some r)
    ∧ (run_search_aggregate rows).Perm rows := by
  refine ⟨dedup_by_nodup _ rows [], ?_, ?_, List.perm_insertionSort _ _⟩
  · intro u
    exact dedup_by_mem_key _ rows [] u (by simp)
  · intro r hr
    exact (dedup_by_first _ rows [] r hr).2

/-- First occurrence of a duplicated url. -/
def exDupA : Listing :=
  { source := "Leboncoin", url := "https://www.leboncoin.fr/ad/9", title := "first",
    price_eur := some 100, location := none, date_str := none }

/-- Later occurrence of the same url with different fields. -/
def exDupB : Listing :=
  { source := "Leboncoin", url := "https://www.leboncoin.fr/ad/9", title := "second",
    price_eur := some 200, location := none, date_str := none }

/-- A listing with a distinct url. -/
def exDupC : Listing :=
  { source := "Leboncoin", url := "https://www.leboncoin.fr/ad/10", title := "third",
    price_eur := none, location := none, date_str := none }

/-- Concrete input with a repeated url. -/
def exDupRows : List Listing := [exDupA, exDupB, exDupC]

/-- Witness for C3: the kept record for the duplicated url is the first
occurrence. -/
theorem C3_witness :
    List.find? (fun x => x.url == exDupA.url) exDupRows = some exDupA :=
  (C3_dedup exDupRows).2.2.1 exDupA (by decide)

/-- Counterexample to C3 as stated: `run_search` (the analyzer's
aggregation path, a cited source of the claim) never deduplicates —
its sorted output keeps both records with the repeated url, so that
url does not appear exactly once. -/
theorem C3_counterexample :
    run_search_aggregate [exDupA, exDupB] = [exDupA, exDupB]
    ∧ ¬ ((run_search_aggregate [exDupA, exDupB]).map Listing.url).Nodup := by
  constructor
  · decide
  · decide

theorem detect_entry_fst (lower : List Char) (kp : String × Pat) (x : String × Nat)
    (h : detect_entry lower kp = some x) : x.1 = kp.1 := by
  rcases kp with ⟨k, p⟩
  cases p with
  | malformed => cases h
  | ok r =>
    by_cases h0 : findallCount r lower = 0
    · simp [detect_entry, h0] at h
    · simp only [detect_entry, if_neg h0, Option.some.injEq] at h
      rw [← h]

theorem detect_keys_sub (lower : List Char) :
    ∀ (ps : List (String × Pat)) (k : String),
      k ∈ (ps.filterMap (detect_entry lower)).map Prod.fst → k ∈ ps.map Prod.fst := by
  intro ps
  induction ps with
  | nil => simp
  | cons hd tl ih =>
    intro k hk
    rw [List.filterMap_cons] at hk
    cases hde : detect_entry lower hd with
    | none =>
      rw [hde] at hk
      exact List.mem_cons_of_mem _ (ih k hk)
    | some x =>
      rw [hde] at hk
      simp only [List.map_cons, List.mem_cons] at hk
      rcases hk with he | hk
      · exact List.mem_cons.mpr (Or.inl (he.trans (detect_entry_fst lower hd x hde)))
      · exact List.mem_cons_of_mem _ (ih k hk)

theorem lookup_none_of_no_key (l : List (String × Nat)) (k : String)
    (h : k ∉ l.map Prod.fst) : l.lookup k = none := by
  rw [List.lookup_eq_none_iff]
  intro p hp
  simp only [bne_iff_ne, ne_eq]
  intro he
  exact h (List.mem_map.mpr ⟨p, hp, he.symm⟩)

/-- Claim C5: `detect_parts` matches case-insensitively (both
`"RTX 3070"` and `"rtx 3070"` hit the key `gpu_rtx_3070` with count 1),
and over any registry with distinct keys it reports, per key, the
number of non-overlapping matches of that key's pattern against the
lower-cased text, omitting the key entirely when the count is zero. -/
theorem C5_detect :
    (detect_parts "RTX 3070" [("gpu_rtx_3070", Pat.ok pat_rtx_3070)] = [("gpu_rtx_3070", 1)]
      ∧ detect_parts "rtx 3070" [("gpu_rtx_3070", Pat.ok pat_rtx_3070)] = [("gpu_rtx_3070", 1)])
    ∧ ∀ (text : String) (patterns : List (String × Pat)) (key : String) (r : Regex),
        (patterns.map Prod.fst).Nodup → (key, Pat.ok r) ∈ patterns →
        (detect_parts text patterns).lookup key
          = if findallCount r (lowerText text) = 0 then none
            else some (findallCount r (lowerText text)) := by
  constructor
  · exact ⟨by decide, by decide⟩
  · intro text patterns key r
    induction patterns with
    | nil =>
      intro _ hmem
      cases hmem
    | cons hd tl ih =>
      intro hnd hmem
      rcases hd with ⟨k0, p0⟩
      rw [List.map_cons, List.nodup_cons] at hnd
      obtain ⟨hk0, hnd2⟩ := hnd
      rcases List.mem_cons.mp hmem with he | hm
      · obtain ⟨he1, he2⟩ := Prod.mk.injEq .. |>.mp he.symm
        subst he1
        subst he2
        unfold detect_parts
        rw [List.filterMap_cons]
        by_cases h0 : findallCount r (lowerText text) = 0
        · rw [if_pos h0]
          simp only [detect_entry, if_pos h0]
          exact lookup_none_of_no_key _ _ (fun hmem2 => hk0 (detect_keys_sub _ tl _ hmem2))
        · rw [if_neg h0]
          simp only [detect_entry, if_neg h0]
          exact List.lookup_cons_self
      · have hne : key ≠ k0 := by
          intro he
          apply hk0
          rw [← he]
          exact List.mem_map.mpr ⟨(key, Pat.ok r), hm, rfl⟩
        unfold detect_parts at ih ⊢
        rw [List.filterMap_cons]
        cases hde : detect_entry (lowerText text) (k0, p0) with
        | none => exact ih hnd2 hm
        | some x =>
          rcases x with ⟨xk, xn⟩
          have hx : xk = k0 := detect_entry_fst _ _ _ hde
          subst hx
          rw [List.lookup_cons]
          have hb : (key == xk) = false := beq_eq_false_iff_ne.mpr hne
          rw [hb]
          exact ih hnd2 hm

/-- Witness for C5: the general counting law applied to the concrete
upper-case text and the singleton registry. -/
theorem C5_witness :
    (detect_parts "RTX 3070" [("gpu_rtx_3070", Pat.ok pat_rtx_3070)]).lookup "gpu_rtx_3070"
      = if findallCount pat_rtx_3070 (lowerText "RTX 3070") = 0 then none
        else some (findallCount pat_rtx_3070 (lowerText "RTX 3070")) :=
  C5_detect.2 "RTX 3070" [("gpu_rtx_3070", Pat.ok pat_rtx_3070)] "gpu_rtx_3070" pat_rtx_3070
    (by decide) (List.mem_singleton.mpr rfl)

/-- Claim C6: a malformed rule is skipped for its own key only:
detection over any registry equals detection over the registry with the
malformed entries removed, and a concrete mixed registry still counts
the valid key correctly. -/
theorem C6_malformed_isolation :
    (∀ (text : String) (patterns : List (String × Pat)),
      detect_parts text patterns
        = detect_parts text (patterns.filter (fun kp => kp.2.isOk)))
    ∧ detect_parts "rtx 3070" [("broken", Pat.malformed), ("gpu_rtx_3070", Pat.ok pat_rtx_3070)]
        = [("gpu_rtx_3070", 1)] := by
  constructor
  · intro text patterns
    induction patterns with
    | nil => rfl
    | cons hd tl ih =>
      rcases hd with ⟨k, p⟩
      cases p with
      | malformed =>
        simpa [detect_parts, detect_entry, List.filterMap_cons, List.filter_cons,
          Pat.isOk] using ih
      | ok r =>
        unfold detect_parts at ih ⊢
        rw [List.filter_cons_of_pos (by rfl), List.filterMap_cons, List.filterMap_cons, ih]
  · decide

theorem optLeAsc_total (a b : Option ℚ) : optLeAsc a b = true ∨ optLeAsc b a = true := by
  cases a <;> cases b <;> simp [optLeAsc]
  exact le_total _ _

theorem optLeAsc_trans (a b c : Option ℚ) :
    optLeAsc a b = true → optLeAsc b c = true → optLeAsc a c = true := by
  cases a <;> cases b <;> cases c <;> simp [optLeAsc]
  exact le_trans

theorem optLeAsc_antisymm (a b : Option ℚ) :
    optLeAsc a b = true → optLeAsc b a = true → a = b := by
  cases a <;> cases b <;> simp [optLeAsc]
  exact le_antisymm

theorem optLeDesc_total (a b : Option ℚ) : optLeDesc a b = true ∨ optLeDesc b a = true := by
  cases a <;> cases b <;> simp [optLeDesc]
  exact le_total _ _

theorem optLeDesc_trans (a b c : Option ℚ) :
    optLeDesc a b = true → optLeDesc b c = true → optLeDesc a c = true := by
  cases a <;> cases b <;> cases c <;> simp [optLeDesc]
  exact fun h1 h2 => le_trans h2 h1

instance : IsTotal Listing PriceRel :=
  ⟨fun a b => optLeAsc_total a.price_eur b.price_eur⟩

instance : IsTrans Listing PriceRel :=
  ⟨fun a b c => optLeAsc_trans a.price_eur b.price_eur c.price_eur⟩

instance : IsTotal Listing MarginRel :=
  ⟨fun a b => optLeDesc_total a.estimated_margin_eur b.estimated_margin_eur⟩

instance : IsTrans Listing MarginRel :=
  ⟨fun a b c => optLeDesc_trans a.estimated_margin_eur b.estimated_margin_eur
    c.estimated_margin_eur⟩

theorem geoRel_total (a b : AdRow) : GeoRelP a b ∨ GeoRelP b a := by
  unfold GeoRelP GeoRel
  by_cases h : a.dist = b.dist
  · rw [if_pos h, if_pos h.symm]
    exact optLeAsc_total _ _
  · rw [if_neg h, if_neg (fun he => h he.symm)]
    exact optLeAsc_total _ _

theorem geoRel_trans (a b c : AdRow) : GeoRelP a b → GeoRelP b c → GeoRelP a c := by
  unfold GeoRelP GeoRel
  by_cases hab : a.dist = b.dist <;> by_cases hbc : b.dist = c.dist
  · rw [if_pos hab, if_pos hbc, if_pos (hab.trans hbc)]
    exact optLeAsc_trans _ _ _
  · rw [if_pos hab, if_neg hbc, if_neg (fun he => hbc (hab.symm.trans he))]
    intro _ h2
    rw [hab]
    exact h2
  · rw [if_neg hab, if_pos hbc, if_neg (fun he => hab (he.trans hbc.symm))]
    intro h1 _
    rw [← hbc]
    exact h1
  · rw [if_neg hab, if_neg hbc]
    intro h1 h2
    by_cases hac : a.dist = c.dist
    · exfalso
      apply hab
      have h2a : optLeAsc b.dist a.dist = true := by
        rw [hac]
        exact h2
      exact optLeAsc_antisymm _ _ h1 h2a
    · rw [if_neg hac]
      exact optLeAsc_trans _ _ _ h1 h2

instance : IsTotal AdRow GeoRelP := ⟨geoRel_total⟩

instance : IsTrans AdRow GeoRelP := ⟨geoRel_trans⟩

theorem pairwise_of_forall_rel {R : α → α → Prop} :
    ∀ l : List α, (∀ a ∈ l, ∀ b ∈ l, R a b) → List.Pairwise R l := by
  intro l
  induction l with
  | nil =>
    intro _
    exact List.Pairwise.nil
  | cons x xs ih =>
    intro h
    refine List.Pairwise.cons ?_ (ih ?_)
    · intro b hb
      exact h x (List.mem_cons_self _ _) b (List.mem_cons_of_mem _ hb)
    · intro a ha b hb
      exact h a (List.mem_cons_of_mem _ ha) b (List.mem_cons_of_mem _ hb)

/-- Claim C7 (amended): each final sort returns a permutation of its
input (absent keys are kept, not excluded) and is pairwise ordered by
its comparator, which places rows with an absent key after every row
with a present key: ascending price for the keyword-only run block,
descending estimated margin for `run_search`, and ascending distance
then ascending price for the city/radius run block. -/
theorem C7_amended_sort (rows : List Listing) (geo : List AdRow) :
    ((sort_rows_price rows).Perm rows
      ∧ List.Pairwise PriceRel (sort_rows_price rows))
    ∧ ((sort_rows_margin rows).Perm rows
      ∧ List.Pairwise MarginRel (sort_rows_margin rows))
    ∧ ((sort_rows_geo geo).Perm geo
      ∧ List.Pairwise GeoRelP (sort_rows_geo geo)) := by
  refine ⟨⟨?_, ?_⟩,
    ⟨List.perm_insertionSort _ _, List.sorted_insertionSort _ _⟩,
    ⟨List.perm_insertionSort _ _, List.sorted_insertionSort _ _⟩⟩
  · unfold sort_rows_price
    by_cases h : rows.any (fun r => r.price_eur.isSome) = true
    · rw [if_pos h]
      exact List.perm_insertionSort _ _
    · rw [if_neg h]
  · unfold sort_rows_price
    by_cases h : rows.any (fun r => r.price_eur.isSome) = true
    · rw [if_pos h]
      exact List.sorted_insertionSort _ _
    · rw [if_neg h]
      have hf : rows.any (fun r => r.price_eur.isSome) = false :=
        Bool.eq_false_iff.mpr h
      rw [List.any_eq_false] at hf
      apply pairwise_of_forall_rel
      intro a ha b hb
      have hA : a.price_eur = none :=
        Option.not_isSome_iff_eq_none.mp (fun hs => hf a ha hs)
      have hB : b.price_eur = none :=
        Option.not_isSome_iff_eq_none.mp (fun hs => hf b hb hs)
      unfold PriceRel
      rw [hA, hB]
      rfl

/-- Close, expensive row of the city/radius counterexample. -/
def exGeoRowA : AdRow :=
  { titre := "near expensive", prix := some 500, ville := none, date := none,
    url := "https://www.leboncoin.fr/ad/20", dist := some 1 }

/-- Far, cheap row of the city/radius counterexample. -/
def exGeoRowB : AdRow :=
  { titre := "far cheap", prix := some 100, ville := none, date := none,
    url := "https://www.leboncoin.fr/ad/21", dist := some 2 }

/-- Counterexample to C7 as stated: the city/radius application has no
valuation, yet its aggregator orders by distance first, so its output
is not ascending by price: the closer 500-euro row precedes the farther
100-euro row. -/
theorem C7_counterexample :
    aggregate_geo 100 [exGeoRowB, exGeoRowA] = [exGeoRowA, exGeoRowB]
    ∧ ¬ List.Pairwise GeoPriceAscRel (aggregate_geo 100 [exGeoRowB, exGeoRowA]) := by
  constructor
  · decide
  · decide

/-- Claim C8 (amended): when `priceMin` is present the bounds are
encoded as one range token — `"min-max"` when `priceMax` is present,
`"min-"` with an explicit empty upper side when it is absent; but when
`priceMin` is absent no price token is emitted at all, so a present
`priceMax` is silently dropped from the built URL. -/
theorem C8_amended_price_token (q : String) (cat loc : Option String)
    (pmin pmax : Option Int) (page : Nat) :
    (∀ a b : Int, pmin = some a → pmax = some b →
      build_params q cat loc pmin pmax page
        = [("text", strip q), ("page", toString page),
            ("price", toString a ++ "-" ++ toString b)]
          ++ (match loc with
              | none => []
              | some s => if s = "" then [] else [("locations", s)]))
    ∧ (∀ a : Int, pmin = some a → pmax = none →
      build_params q cat loc pmin pmax page
        = [("text", strip q), ("page", toString page), ("price", toString a ++ "-")]
          ++ (match loc with
              | none => []
              | some s => if s = "" then [] else [("locations", s)]))
    ∧ (pmin = none → ∀ v : String, ("price", v) ∉ build_params q cat loc pmin pmax page) := by
  refine ⟨?_, ?_, ?_⟩
  · rintro a b rfl rfl
    simp [build_params, price_token]
  · rintro a rfl rfl
    simp [build_params, price_token]
  · rintro rfl v hv
    rcases loc with _ | s
    · simp [build_params] at hv
    · by_cases hs : s = "" <;> simp [build_params, hs] at hv

/-- Counterexample to C8 as stated: with `priceMax = 500` present and
`priceMin` absent, the built parameters contain no price token at all —
the upper bound is not applied to the locator. -/
theorem C8_counterexample :
    "price" ∉ (build_params "rtx" none none none (some 500) 1).map Prod.fst := by
  decide

/-- Witness for C8 with both bounds present. -/
theorem C8_witness :
    ("price", toString (0 : Int) ++ "-" ++ toString (1500 : Int))
      ∈ build_params "rtx 3070" none none (some 0) (some 1500) 1 := by
  rw [(C8_amended_price_token "rtx 3070" none none (some 0) (some 1500) 1).1 0 1500 rfl rfl]
  simp

/-- Claim C9 (amended): the request builder never signals any error:
for every query text — including one that is empty after trimming — it
returns a locator whose `text` parameter carries the trimmed query.
Empty-after-trim query texts are instead discarded upstream by the
query-list splitter, so they are never built during a run. -/
theorem C9_builder_total (queries q : String) (cat loc : Option String)
    (pmin pmax : Option Int) (page : Nat) :
    ("text", strip q) ∈ build_params q cat loc pmin pmax page
    ∧ build_search_url q cat loc pmin pmax page
        = BASE_URL ++ "?" ++ String.intercalate "&"
            ((build_params q cat loc pmin pmax page).map (fun kv => kv.1 ++ "=" ++ pquote kv.2))
    ∧ ∀ s ∈ qlist_of queries, s ≠ "" := by
  refine ⟨?_, rfl, ?_⟩
  · exact List.mem_append_left _ (List.mem_append_left _ (List.mem_cons_self _ _))
  · intro s hs
    have h := (List.mem_filter.mp hs).2
    simpa using h

/-- Counterexample to C9 as stated: an empty query text does not raise
any `InvalidRequestError` — the builder succeeds and returns a locator
with an empty `text` token. -/
theorem C9_counterexample :
    build_search_url "" none none none none 1
      = "https://www.leboncoin.fr/recherche/?text=&page=1" := by
  decide

/-- Witness for C9: the builder yields a `text` parameter even for the
empty query, and a concrete query list keeps only non-empty entries. -/
theorem C9_witness :
    ("text", strip "") ∈ build_params "" none none none none 1
    ∧ ("rtx" : String) ≠ "" :=
  ⟨(C9_builder_total "" "" none none none none 1).1,
   (C9_builder_total " , rtx" "" none none none none 1).2.2 "rtx" (by decide)⟩
